import Mathlib

set_option autoImplicit false

namespace GennaroDkg

/-!
Verification of the `gennaro-dkg` crate (`src/lib.rs`, `src/secret_share.rs`).

Scalars and group elements are modelled at the byte level as natural numbers
below the (prime) order `q`, with a fixed-size little-endian canonical byte
encoding of length `ℓ`: every prime-order cyclic group used by the crate is
isomorphic to its scalar field, and the serde helpers in `src/lib.rs` only use
the canonical fixed-size encoding, decoding, and the identity test, so this
captures exactly the structure the code depends on.
-/

/-- Little-endian byte encoding of a natural number into exactly `ℓ` bytes.
Models the canonical fixed-size representation (`to_repr` for scalars,
`to_bytes` for group elements). -/
def natToBytesLE : ℕ → ℕ → List ℕ
  | 0, _ => []
  | ℓ + 1, x => x % 256 :: natToBytesLE ℓ (x / 256)

/-- Reassemble a natural number from its little-endian byte list. -/
def bytesToNatLE : List ℕ → ℕ
  | [] => 0
  | b :: rest => b + 256 * bytesToNatLE rest

/-! ### base64url (no padding), as used by the `base64_url` crate

`serialize_scalar`, `serialize_g`, `serialize_g_vec` and `serialize_share`
call `base64_url::encode` in the human-readable branch; the matching
deserializers call `base64_url::decode`.  Modelled from the spec: the
human-readable form is "base64url of the canonical byte representation". -/

/-- The base64url alphabet. -/
def b64Alphabet : List Char :=
  ['A', 'B', 'C', 'D', 'E', 'F', 'G', 'H', 'I', 'J', 'K', 'L', 'M',
   'N', 'O', 'P', 'Q', 'R', 'S', 'T', 'U', 'V', 'W', 'X', 'Y', 'Z',
   'a', 'b', 'c', 'd', 'e', 'f', 'g', 'h', 'i', 'j', 'k', 'l', 'm',
   'n', 'o', 'p', 'q', 'r', 's', 't', 'u', 'v', 'w', 'x', 'y', 'z',
   '0', '1', '2', '3', '4', '5', '6', '7', '8', '9', '-', '_']

/-- The character standing for a sextet value. -/
def charOfSextet (n : ℕ) : Char := b64Alphabet.getD n 'A'

/-- Index of a character in an alphabet (leftmost match). -/
def indexInAlphabet : List Char → Char → Option ℕ
  | [], _ => none
  | a :: rest, c => if a = c then some 0 else (indexInAlphabet rest c).map (· + 1)

/-- The sextet value of an alphabet character, `none` for foreign characters. -/
def sextetOfChar (c : Char) : Option ℕ := indexInAlphabet b64Alphabet c

/-- Split bytes into 6-bit groups, big-endian within each byte, exactly as
base64 does; trailing 1- or 2-byte groups become 2 or 3 sextets. -/
def bytesToSextets : List ℕ → List ℕ
  | [] => []
  | [b1] => [b1 / 4, b1 % 4 * 16]
  | [b1, b2] => [b1 / 4, b1 % 4 * 16 + b2 / 16, b2 % 16 * 4]
  | b1 :: b2 :: b3 :: rest =>
      b1 / 4 :: (b1 % 4 * 16 + b2 / 16) :: (b2 % 16 * 4 + b3 / 64) :: b3 % 64 ::
        bytesToSextets rest

/-- Reassemble bytes from 6-bit groups; a single trailing sextet is malformed. -/
def sextetsToBytes : List ℕ → Option (List ℕ)
  | [] => some []
  | [_] => none
  | [s1, s2] => some [s1 * 4 + s2 / 16]
  | [s1, s2, s3] => some [s1 * 4 + s2 / 16, s2 % 16 * 16 + s3 / 4]
  | s1 :: s2 :: s3 :: s4 :: rest =>
      (sextetsToBytes rest).map
        (fun bs => (s1 * 4 + s2 / 16) :: (s2 % 16 * 16 + s3 / 4) ::
          (s3 % 4 * 64 + s4) :: bs)

/-- Map characters back to sextets, failing on the first foreign character. -/
def sextetsOfChars : List Char → Option (List ℕ)
  | [] => some []
  | c :: rest =>
    match sextetOfChar c, sextetsOfChars rest with
    | some s, some ss => some (s :: ss)
    | _, _ => none

/-- base64url encoding of a byte list. -/
def encodeB64 (bs : List ℕ) : List Char := (bytesToSextets bs).map charOfSextet

/-- base64url decoding of a character list. -/
def decodeB64 (s : List Char) : Option (List ℕ) :=
  (sextetsOfChars s).bind sextetsToBytes

/-! ### Outcome of a deserializer

Rust serde deserializers return `Result`; in addition,
`copy_from_slice` panics when the two slices have different lengths, so a
deserializer call has three observable outcomes. -/

/-- Result of running a deserializer: success, a serde error, or a panic. -/
inductive DeserResult (α : Type) where
  | ok (value : α)
  | err (msg : String)
  | panicked
  deriving DecidableEq

/-! ### Scalar field / group element encoding

A scalar (or group element) of order `q` is modelled as a natural number
below `q`; its canonical representation is the `ℓ`-byte little-endian
encoding.  `from_repr` / `from_bytes` succeed exactly on canonical
representations. -/

/-- `F::from_repr` / `G::from_bytes`: decode an `ℓ`-byte canonical
representation, `none` when the bytes are not the canonical encoding of an
element (value out of range). -/
def elemFromBytes (q : ℕ) (bs : List ℕ) : Option ℕ :=
  if bytesToNatLE bs < q then some (bytesToNatLE bs) else none

/-- `serialize_scalar` (src/lib.rs:512-525), human-readable branch:
base64url of `scalar.to_repr()`. -/
def serializeScalarHR (ℓ x : ℕ) : List Char := encodeB64 (natToBytesLE ℓ x)

/-- `deserialize_scalar::visit_str` (src/lib.rs:539-553): base64url-decode the
string (serde error on failure), `copy_from_slice` the bytes into an `ℓ`-byte
`repr` (panics when the byte count differs from `ℓ`), then `F::from_repr`
(serde error on failure). -/
def deserializeScalarHR (q ℓ : ℕ) (s : List Char) : DeserResult ℕ :=
  match decodeB64 s with
  | none => .err "invalid value"
  | some bytes =>
    if bytes.length = ℓ then
      match elemFromBytes q bytes with
      | some x => .ok x
      | none => .err "unable to convert to scalar"
    else .panicked

/-- `serialize_g` (src/lib.rs:588-603), human-readable branch: base64url of
`g.to_bytes()`. -/
def serializeGHR (ℓ x : ℕ) : List Char := encodeB64 (natToBytesLE ℓ x)

/-- `deserialize_g::visit_str` (src/lib.rs:619-633): base64url-decode the
string (serde error on failure), `copy_from_slice` into `G::Repr` (panics when
the byte count differs from the representation size `ℓ`), then
`G::from_bytes` (serde error on failure). -/
def deserializeGHR (q ℓ : ℕ) (s : List Char) : DeserResult ℕ :=
  match decodeB64 s with
  | none => .err "invalid value str"
  | some bytes =>
    if bytes.length = ℓ then
      match elemFromBytes q bytes with
      | some x => .ok x
      | none => .err "invalid value decode"
    else .panicked

/-! ### Binary encoding of commitment vectors -/

/-- `uint_zigzag::Uint::MAX_BYTES`: maximal byte length of an encoded `u128`
(7 usable bits per byte). -/
def uintMaxBytes : ℕ := 19

/-- Varint encoding of an unsigned count (`uint_zigzag::Uint::to_vec`):
little-endian 7-bit groups, high bit marking continuation.  The fuel argument
(always ≥ `uintMaxBytes`) keeps the recursion structural. -/
def uintEncodeAux : ℕ → ℕ → List ℕ
  | 0, x => [x]
  | fuel + 1, x => if x < 128 then [x] else (x % 128 + 128) :: uintEncodeAux fuel (x / 128)

/-- Varint encoding of a vector length. -/
def uintEncode (x : ℕ) : List ℕ := uintEncodeAux uintMaxBytes x

/-- `uint_zigzag::Uint::peek`: the number of bytes occupied by the varint at
the head of the buffer, `none` when no terminating byte is found. -/
def uintPeekAux : ℕ → List ℕ → Option ℕ
  | _, [] => none
  | 0, _ => none
  | fuel + 1, b :: rest =>
    if b < 128 then some 1 else (uintPeekAux fuel rest).map (· + 1)

/-- Peek at a varint in a buffer, scanning at most `uintMaxBytes` bytes. -/
def uintPeek (buf : List ℕ) : Option ℕ := uintPeekAux uintMaxBytes buf

/-- `uint_zigzag::Uint::try_from` on the bytes selected by `peek`: reassemble
the value from its little-endian 7-bit groups. -/
def uintDecode : List ℕ → ℕ
  | [] => 0
  | b :: rest => b % 128 + 128 * uintDecode rest

/-- `serialize_g_vec` (src/lib.rs:666-692), binary branch: a byte sequence
holding the varint element count followed by the concatenated fixed-size
canonical encodings of the elements. -/
def serializeGVecBin (ℓ : ℕ) (v : List ℕ) : List ℕ :=
  uintEncode v.length ++ (v.map (natToBytesLE ℓ)).flatten

/-- The first read loop of `deserialize_g_vec`'s `NonReadableVisitor::visit_seq`
(src/lib.rs:712-719): `let mut i = 0; while let Some(b) = seq.next_element()? {
buffer[i] = b; if i == Uint::MAX_BYTES { break; } }`.  The index `i` is never
incremented, so every byte of the sequence is written to `buffer[0]` and the
break condition `i == Uint::MAX_BYTES` never fires: the loop consumes the
whole sequence and leaves `buffer = [last byte, 0, ..., 0]`. -/
def visitFill : List ℕ → List ℕ → List ℕ
  | buf, [] => buf
  | buf, b :: rest =>
    if (0 : ℕ) = uintMaxBytes then buf.set 0 b else visitFill (buf.set 0 b) rest

/-- `deserialize_g_vec` (src/lib.rs:694-777), binary branch
(`NonReadableVisitor::visit_seq`).  After the fill loop has consumed the whole
sequence, the varint parsed out of `buffer` gives the element count `points`;
`r[..i].copy_from_slice(&buffer[bytes_cnt_size..])` panics when the
representation size `ℓ` is smaller than `i = Uint::MAX_BYTES - bytes_cnt_size`;
the second read loop finds the sequence already exhausted, so `out` stays
empty and the function returns `Ok([])` when `points == 0` and an
`invalid_length` error otherwise. -/
def deserializeGVecBin (ℓ : ℕ) (input : List ℕ) : DeserResult (List ℕ) :=
  let buffer := visitFill (List.replicate uintMaxBytes 0) input
  match uintPeek buffer with
  | none => .err "invalid value bytes"
  | some cnt =>
    let points := uintDecode (buffer.take cnt)
    if ℓ < uintMaxBytes - cnt then .panicked
    else if points = 0 then .ok [] else .err "invalid length"

/-! ## The DKG state machine

The scalar field of the prime-order group `G` is modelled by a field `F`
with decidable equality; since `G` is cyclic of prime order it is isomorphic
to `F` as an `F`-module, so a group element is an element of `F`, scalar
multiplication is field multiplication and the group identity is `0`.
Secret and blinding polynomial coefficients drawn from the CSPRNG are
explicit inputs. -/

section Dkg

variable {F : Type} [Field F] [DecidableEq F]

/-- `vsss_rs::Share`: the recipient id in the first byte followed by the
canonical scalar encoding; `is_zero` tests the scalar part. -/
structure Share (F : Type) where
  identifier : ℕ
  value : F
  deriving DecidableEq

/-- `vsss_rs::FeldmanVerifier`: the message generator and the Feldman
commitments `A_k = a_k·M`. -/
structure FeldmanVerifier (F : Type) where
  generator : F
  commitments : List F
  deriving DecidableEq

/-- `vsss_rs::PedersenVerifier`: the blinder generator, the Pedersen
commitments `C_k = a_k·M + b_k·H`, and the companion Feldman verifier. -/
structure PedersenVerifier (F : Type) where
  generator : F
  commitments : List F
  feldman_verifier : FeldmanVerifier F
  deriving DecidableEq

/-- `vsss_rs::PedersenResult`: the output of the Pedersen splitter. -/
structure PedersenResult (F : Type) where
  secret_shares : List (Share F)
  blind_shares : List (Share F)
  verifier : PedersenVerifier F
  deriving DecidableEq

/-- `Parameters` (src/lib.rs:233-240). -/
structure Parameters (F : Type) where
  threshold : ℕ
  limit : ℕ
  message_generator : F
  blinder_generator : F
  deriving DecidableEq

/-- The `Round` enum (src/lib.rs:308-315): exactly five states, no
terminal state beyond `Five`. -/
inductive Round where
  | one
  | two
  | three
  | four
  | five
  deriving DecidableEq

/-- `Round1BroadcastData` (src/lib.rs:318-329). -/
structure Round1BroadcastData (F : Type) where
  message_generator : F
  blinder_generator : F
  pedersen_commitments : List F
  deriving DecidableEq

/-- `Round1P2PData` (src/lib.rs:358-370). -/
structure Round1P2PData (F : Type) where
  secret_share : Share F
  blind_share : Share F
  deriving DecidableEq

/-- `Round2EchoBroadcastData` (src/lib.rs:332-335); the `BTreeSet` is a
sorted duplicate-free list, compared by structural equality. -/
structure Round2EchoBroadcastData where
  valid_participant_ids : List ℕ
  deriving DecidableEq

/-- `Round3BroadcastData` (src/lib.rs:338-347). -/
structure Round3BroadcastData (F : Type) where
  message_generator : F
  commitments : List F
  deriving DecidableEq

/-- `Round4EchoBroadcastData` (src/lib.rs:350-355). -/
structure Round4EchoBroadcastData (F : Type) where
  public_key : F
  deriving DecidableEq

/-- `Participant` (src/lib.rs:286-305); the `BTreeMap`s are association
lists looked up by key, the `BTreeSet` a sorted duplicate-free list. -/
structure Participant (F : Type) where
  id : ℕ
  components : PedersenResult F
  threshold : ℕ
  limit : ℕ
  round : Round
  secret_share : F
  public_key : F
  round1_broadcast_data : List (ℕ × Round1BroadcastData F)
  round1_p2p_data : List (ℕ × Round1P2PData F)
  valid_participant_ids : List ℕ
  deriving DecidableEq

/-- `Error` (declared in the missing `error` module; spec §6): constructor
failures and per-round failures. -/
inductive DkgError where
  | initializationError (msg : String)
  | roundError (round : ℕ) (msg : String)
  deriving DecidableEq

instance exceptDecEq {ε α : Type} [DecidableEq ε] [DecidableEq α] :
    DecidableEq (Except ε α) := fun x y => by
  cases x with
  | ok a =>
    cases y with
    | ok b => exact if h : a = b then .isTrue (by rw [h]) else .isFalse (by simp [h])
    | error b => exact .isFalse (by simp)
  | error a =>
    cases y with
    | ok b => exact .isFalse (by simp)
    | error b => exact if h : a = b then .isTrue (by rw [h]) else .isFalse (by simp [h])

/-- Horner evaluation of a polynomial given by its coefficient list
(constant term first). -/
def polyEval (coeffs : List F) (x : F) : F :=
  coeffs.foldr (fun c acc => c + x * acc) 0

/-- Modelled from the spec (§4.1): `vsss_rs::Pedersen::split_secret`, whose
source is an external dependency.  The random coefficients `sRand`, `bRand`
drawn from the CSPRNG are explicit inputs; the polynomials are
`f = secret :: sRand` and `r = blinder :: bRand`, the shares are their
evaluations at `1..n` tagged with the recipient id, the Pedersen commitments
are `a_k·M + b_k·H`, the Feldman commitments `a_k·M`. -/
def split_secret (n : ℕ) (M H : F) (secret blinder : F) (sRand bRand : List F) :
    PedersenResult F :=
  let fCoeffs := secret :: sRand
  let rCoeffs := blinder :: bRand
  { secret_shares :=
      (List.range n).map (fun j => ⟨j + 1, polyEval fCoeffs (((j + 1 : ℕ) : F))⟩)
    blind_shares :=
      (List.range n).map (fun j => ⟨j + 1, polyEval rCoeffs (((j + 1 : ℕ) : F))⟩)
    verifier :=
      { generator := H
        commitments := List.zipWith (fun a b => a * M + b * H) fCoeffs rCoeffs
        feldman_verifier := { generator := M, commitments := fCoeffs.map (· * M) } } }

/-- The checks of `Participant::initialize` (src/lib.rs:417-456) on the
splitter's output: reject identity generators, identity commitments
(Pedersen or Feldman), and shares that encode to zero; otherwise build the
round-1 participant. -/
def initWithComponents (id : ℕ) (parameters : Parameters F)
    (components : PedersenResult F) : Except DkgError (Participant F) :=
  if components.verifier.generator = 0 ∨
      components.verifier.feldman_verifier.generator = 0 then
    .error (.initializationError "Invalid generators")
  else if (∃ c ∈ components.verifier.commitments, c = 0) ∨
      (∃ c ∈ components.verifier.feldman_verifier.commitments, c = 0) then
    .error (.initializationError "Invalid commitments")
  else if (∃ s ∈ components.secret_shares, s.value = 0) ∨
      (∃ s ∈ components.blind_shares, s.value = 0) then
    .error (.initializationError "Invalid shares")
  else
    .ok { id := id
          components := components
          threshold := parameters.threshold
          limit := parameters.limit
          round := .one
          secret_share := 0
          public_key := 0
          round1_broadcast_data := []
          round1_p2p_data := []
          valid_participant_ids := [] }

/-- `Participant::initialize` (src/lib.rs:398-457): run the Pedersen
splitter, then apply the output checks. -/
def initParticipant (id : ℕ) (parameters : Parameters F) (secret blinder : F)
    (sRand bRand : List F) : Except DkgError (Participant F) :=
  initWithComponents id parameters
    (split_secret parameters.limit parameters.message_generator
      parameters.blinder_generator secret blinder sRand bRand)

/-- `Participant::new` (src/lib.rs:374-379): the freshly sampled secret and
blinder (and the splitter's coefficient draws) are explicit inputs. -/
def Participant.new (id : ℕ) (parameters : Parameters F) (secret blinder : F)
    (sRand bRand : List F) : Except DkgError (Participant F) :=
  initParticipant id parameters secret blinder sRand bRand

/-- `Participant::refresh` (src/lib.rs:393-396): like `new` with secret 0. -/
def Participant.refresh (id : ℕ) (parameters : Parameters F) (blinder : F)
    (sRand bRand : List F) : Except DkgError (Participant F) :=
  initParticipant id parameters 0 blinder sRand bRand

/-- `get_id` (src/lib.rs:460-462). -/
def get_id (p : Participant F) : ℕ := p.id

/-- `get_secret_share` (src/lib.rs:466-468). -/
def get_secret_share (p : Participant F) : F := p.secret_share

/-- `get_public_key` (src/lib.rs:472-474). -/
def get_public_key (p : Participant F) : F := p.public_key

/-- The capabilities of the `Group + GroupEncoding` bound that
`Parameters::new` uses: the standard generator, the canonical byte encoding,
and `G::random` run on a `ChaChaRng` seeded from 32 bytes.  Modelled from the
spec: `rand_chacha::ChaChaRng` is a deterministic CSPRNG, so `G::random`
with it is a deterministic function of the seed. -/
structure GroupOps (F : Type) where
  generator : F
  toBytes : F → List ℕ
  random : List ℕ → F

/-- `Parameters::new` (src/lib.rs:256-267): the message generator is the
group's standard generator; the blinder generator is sampled from a ChaCha
CSPRNG seeded with the first 32 bytes of the message generator's encoding
(`seed.copy_from_slice(&message_generator.to_bytes().as_ref()[0..32])`;
every supported group encodes into at least 32 bytes). -/
def Parameters.new (ops : GroupOps F) (threshold limit : ℕ) : Parameters F :=
  { threshold := threshold
    limit := limit
    message_generator := ops.generator
    blinder_generator := ops.random ((ops.toBytes ops.generator).take 32) }

/-- `Parameters::with_generators` (src/lib.rs:270-283). -/
def Parameters.with_generators (threshold limit : ℕ)
    (message_generator blinder_generator : F) : Parameters F :=
  ⟨threshold, limit, message_generator, blinder_generator⟩

/-- `BTreeMap::get`: look an id up in an association list. -/
def lookupId {α : Type} : List (ℕ × α) → ℕ → Option α
  | [], _ => none
  | e :: rest, k => if e.1 = k then some e.2 else lookupId rest k

/-- The id list `1..n` over which a participant enumerates its peers. -/
def idsUpTo (n : ℕ) : List ℕ := (List.range n).map (· + 1)

/-- The broadcast emitted in round 1: the participant's generators and its
Pedersen commitments. -/
def round1Broadcast (p : Participant F) : Round1BroadcastData F :=
  { message_generator := p.components.verifier.feldman_verifier.generator
    blinder_generator := p.components.verifier.generator
    pedersen_commitments := p.components.verifier.commitments }

/-- The p2p message for recipient `j`: the dealer's shares `f(j)`, `r(j)`
(the splitter stores the share of id `j` at position `j - 1`). -/
def round1ShareAt (p : Participant F) (j : ℕ) : Round1P2PData F :=
  { secret_share := p.components.secret_shares.getD (j - 1) ⟨0, 0⟩
    blind_share := p.components.blind_shares.getD (j - 1) ⟨0, 0⟩ }

/-- Modelled from the spec (§4.2): `round1` — the `round1` module is declared
in src/lib.rs:205 but its file is absent from the sources.  Requires
`round == 1`; records the participant's own broadcast and own p2p share;
returns the broadcast `{M, H, pedersen_commitments}` and the p2p map
`{f(j), r(j)}` for every `j ∈ [1, n], j ≠ id`; advances to round 2. -/
def round1 (p : Participant F) :
    Except DkgError (Participant F × Round1BroadcastData F × List (ℕ × Round1P2PData F)) :=
  if p.round ≠ Round.one then .error (.roundError 1 "wrong round") else
  .ok ({ p with
          round := .two
          round1_broadcast_data := [(p.id, round1Broadcast p)]
          round1_p2p_data := [(p.id, round1ShareAt p p.id)] },
        round1Broadcast p,
        ((idsUpTo p.limit).filter (fun j => decide (j ≠ p.id))).map
          (fun j => (j, round1ShareAt p j)))

/-- The per-peer checks of round 2 (spec §4.3, steps 2-4): both messages
present, generators matching the participant's parameters, exactly `t`
commitments, none at identity, shares addressed to self and nonzero, and the
Pedersen check `s·M + b·H = Σ id^k·C_k` (Horner evaluation). -/
def checkPeer (p : Participant F) (bdata : List (ℕ × Round1BroadcastData F))
    (p2p : List (ℕ × Round1P2PData F)) (j : ℕ) : Bool :=
  match lookupId bdata j, lookupId p2p j with
  | some bc, some pd =>
    decide (bc.message_generator = p.components.verifier.feldman_verifier.generator) &&
    decide (bc.blinder_generator = p.components.verifier.generator) &&
    decide (bc.pedersen_commitments.length = p.threshold) &&
    bc.pedersen_commitments.all (fun c => decide (¬ c = 0)) &&
    decide (pd.secret_share.identifier = p.id) &&
    decide (pd.blind_share.identifier = p.id) &&
    decide (¬ pd.secret_share.value = 0) &&
    decide (¬ pd.blind_share.value = 0) &&
    decide (pd.secret_share.value * p.components.verifier.feldman_verifier.generator +
      pd.blind_share.value * p.components.verifier.generator =
      polyEval bc.pedersen_commitments ((p.id : ℕ) : F))
  | _, _ => false

/-- The set kept by round 2: self together with every peer of `[1, n]`
passing `checkPeer`; its enumeration over `1..n` keeps it sorted and
duplicate-free like the `BTreeSet` it models. -/
def round2Valid (p : Participant F) (bdata : List (ℕ × Round1BroadcastData F))
    (p2p : List (ℕ × Round1P2PData F)) : List ℕ :=
  (idsUpTo p.limit).filter (fun j => decide (j = p.id) || checkPeer p bdata p2p j)

/-- Modelled from the spec (§4.3): `round2` — module file absent from the
sources.  Requires `round == 2`; rejects self-addressed input; keeps `{id}`
together with every peer of `[1, n]` passing `checkPeer`; aborts below the
threshold; stashes the accepted peers' messages; advances to round 3. -/
def round2 (p : Participant F) (bdata : List (ℕ × Round1BroadcastData F))
    (p2p : List (ℕ × Round1P2PData F)) :
    Except DkgError (Participant F × Round2EchoBroadcastData) :=
  if p.round ≠ Round.two then .error (.roundError 2 "wrong round") else
  if (lookupId bdata p.id).isSome ∨ (lookupId p2p p.id).isSome then
    .error (.roundError 2 "self directed message") else
  if (round2Valid p bdata p2p).length < p.threshold then
    .error (.roundError 2 "too few valid participants") else
  .ok ({ p with
          round := .three
          valid_participant_ids := round2Valid p bdata p2p
          round1_broadcast_data :=
            p.round1_broadcast_data ++
              bdata.filter (fun e => decide (e.1 ∈ round2Valid p bdata p2p))
          round1_p2p_data :=
            p.round1_p2p_data ++
              p2p.filter (fun e => decide (e.1 ∈ round2Valid p bdata p2p)) },
        ⟨round2Valid p bdata p2p⟩)

/-- The set kept by round 3: self together with every valid peer whose echo
is present and agrees with self's set. -/
def round3Keep (p : Participant F) (echoes : List (ℕ × Round2EchoBroadcastData)) :
    List ℕ :=
  p.valid_participant_ids.filter (fun j =>
    decide (j = p.id) ||
      (match lookupId echoes j with
       | some e => decide (e.valid_participant_ids = p.valid_participant_ids)
       | none => false))

/-- Modelled from the spec (§4.4): `round3` — module file absent from the
sources.  Requires `round == 3`; drops every valid peer without an echo or
whose echoed set differs from self's; aborts below the threshold; publishes
the Feldman commitments; advances to round 4. -/
def round3 (p : Participant F) (echoes : List (ℕ × Round2EchoBroadcastData)) :
    Except DkgError (Participant F × Round3BroadcastData F) :=
  if p.round ≠ Round.three then .error (.roundError 3 "wrong round") else
  if (round3Keep p echoes).length < p.threshold then
    .error (.roundError 3 "too few valid participants") else
  .ok ({ p with round := .four, valid_participant_ids := round3Keep p echoes },
       { message_generator := p.components.verifier.feldman_verifier.generator
         commitments := p.components.verifier.feldman_verifier.commitments })

/-- The per-peer Feldman check of round 4 (spec §4.5): broadcast present with
matching generator and exactly `t` commitments, and the stashed share
satisfying `s_j·M = Σ id^k·A_{j,k}`. -/
def feldmanCheck (p : Participant F) (bdata : List (ℕ × Round3BroadcastData F))
    (j : ℕ) : Bool :=
  match lookupId bdata j, lookupId p.round1_p2p_data j with
  | some bc, some pd =>
    decide (bc.message_generator = p.components.verifier.feldman_verifier.generator) &&
    decide (bc.commitments.length = p.threshold) &&
    decide (pd.secret_share.value * p.components.verifier.feldman_verifier.generator =
      polyEval bc.commitments ((p.id : ℕ) : F))
  | _, _ => false

/-- The aggregated secret share of round 4: the sum of the stashed verified
shares over the valid set (self included). -/
def round4SecretShare (p : Participant F) : F :=
  (p.valid_participant_ids.map (fun j =>
    ((lookupId p.round1_p2p_data j).getD ⟨⟨0, 0⟩, ⟨0, 0⟩⟩).secret_share.value)).sum

/-- The aggregated public key of round 4: the sum of the zero-coefficient
Feldman commitments over the valid set. -/
def round4PublicKey (p : Participant F)
    (bdata : List (ℕ × Round3BroadcastData F)) : F :=
  (p.valid_participant_ids.map (fun j =>
    ((lookupId bdata j).getD ⟨0, []⟩).commitments.headD 0)).sum

/-- Modelled from the spec (§4.5): `round4` — module file absent from the
sources.  Requires `round == 4`; Feldman-verifies every valid participant
(fatal on any failure); accumulates the secret share as the sum of the
stashed shares and the public key as the sum of the zero-coefficient Feldman
commitments; advances to round 5. -/
def round4 (p : Participant F) (bdata : List (ℕ × Round3BroadcastData F)) :
    Except DkgError (Participant F × Round4EchoBroadcastData F) :=
  if p.round ≠ Round.four then .error (.roundError 4 "wrong round") else
  if p.valid_participant_ids.all (fun j => feldmanCheck p bdata j) then
    .ok ({ p with
            round := .five
            secret_share := round4SecretShare p
            public_key := round4PublicKey p bdata },
          ⟨round4PublicKey p bdata⟩)
  else .error (.roundError 4 "feldman verification failed")

/-- Modelled from the spec (§4.6): `round5` — module file absent from the
sources.  Requires `round == 5`; every valid peer's echoed public key must
equal self's (fatal otherwise).  The source's test calls `round5` through a
shared borrow (src/lib.rs:890-895), so `round5` takes `&self` and cannot
mutate: the returned state is the input state unchanged. -/
def round5 (p : Participant F) (echoes : List (ℕ × Round4EchoBroadcastData F)) :
    Except DkgError (Participant F × Unit) :=
  if p.round ≠ Round.five then .error (.roundError 5 "wrong round") else
  if (p.valid_participant_ids.filter (fun j => decide (j ≠ p.id))).all (fun j =>
      match lookupId echoes j with
      | some e => decide (e.public_key = p.public_key)
      | none => false) then
    .ok (p, ())
  else .error (.roundError 5 "invalid participant round4 data")

/-! ### A faithful-delivery run of the protocol

The harness reproduces the message flow of the doc example
(src/lib.rs:24-183) and of the test (src/lib.rs:806-906): every broadcast
datum is delivered identically to every peer, every p2p share is delivered
to its addressee, and round-3/4/5 inputs carry every participant's output
(the test maps include the sender's own entry).  All randomness is an
explicit input. -/

/-- The data of one run: parameters, and each participant's CSPRNG draws:
`sec i` / `bli i` are participant `i`'s secret and blinder, `sRand i` /
`bRand i` the splitter's higher-coefficient draws (of which `t - 1` are
used). -/
structure RunData (F : Type) where
  t : ℕ
  n : ℕ
  M : F
  H : F
  sec : ℕ → F
  bli : ℕ → F
  sRand : ℕ → ℕ → F
  bRand : ℕ → ℕ → F

/-- The shared `Parameters` of a run. -/
def RunData.params (D : RunData F) : Parameters F := ⟨D.t, D.n, D.M, D.H⟩

/-- Participant `i` after construction. -/
def initFor (D : RunData F) (i : ℕ) : Except DkgError (Participant F) :=
  initParticipant i D.params (D.sec i) (D.bli i)
    ((List.range (D.t - 1)).map (D.sRand i)) ((List.range (D.t - 1)).map (D.bRand i))

/-- Participant `i`'s round-1 call. -/
def r1For (D : RunData F) (i : ℕ) :
    Except DkgError (Participant F × Round1BroadcastData F × List (ℕ × Round1P2PData F)) :=
  (initFor D i).bind round1

/-- Collect `(j, f j)` for every `j` of a list, failing on the first
failure: the assembly of a delivered message map. -/
def collectE {β : Type} (f : ℕ → Except DkgError β) :
    List ℕ → Except DkgError (List (ℕ × β))
  | [] => .ok []
  | j :: rest =>
    match f j, collectE f rest with
    | .ok y, .ok ys => .ok ((j, y) :: ys)
    | .error e, _ => .error e
    | .ok _, .error e => .error e

/-- The round-1 broadcasts delivered to participant `i` (all peers). -/
def bdataFor (D : RunData F) (i : ℕ) :
    Except DkgError (List (ℕ × Round1BroadcastData F)) :=
  collectE (fun j => (r1For D j).map (fun out => out.2.1))
    ((idsUpTo D.n).filter (fun j => decide (j ≠ i)))

/-- The round-1 p2p shares addressed to participant `i` (all peers). -/
def p2pFor (D : RunData F) (i : ℕ) :
    Except DkgError (List (ℕ × Round1P2PData F)) :=
  collectE (fun j =>
      (r1For D j).map (fun out => (lookupId out.2.2 i).getD ⟨⟨0, 0⟩, ⟨0, 0⟩⟩))
    ((idsUpTo D.n).filter (fun j => decide (j ≠ i)))

/-- Participant `i` through round 2. -/
def r2For (D : RunData F) (i : ℕ) :
    Except DkgError (Participant F × Round2EchoBroadcastData) := do
  let out1 ← r1For D i
  let bd ← bdataFor D i
  let pp ← p2pFor D i
  round2 out1.1 bd pp

/-- The delivered round-2 echo map (every participant's echo). -/
def r2EchoMap (D : RunData F) : Except DkgError (List (ℕ × Round2EchoBroadcastData)) :=
  collectE (fun j => (r2For D j).map (fun out => out.2)) (idsUpTo D.n)

/-- Participant `i` through round 3. -/
def r3For (D : RunData F) (i : ℕ) :
    Except DkgError (Participant F × Round3BroadcastData F) := do
  let out2 ← r2For D i
  let em ← r2EchoMap D
  round3 out2.1 em

/-- The delivered round-3 broadcast map. -/
def r3Map (D : RunData F) : Except DkgError (List (ℕ × Round3BroadcastData F)) :=
  collectE (fun j => (r3For D j).map (fun out => out.2)) (idsUpTo D.n)

/-- Participant `i` through round 4. -/
def r4For (D : RunData F) (i : ℕ) :
    Except DkgError (Participant F × Round4EchoBroadcastData F) := do
  let out3 ← r3For D i
  let bm ← r3Map D
  round4 out3.1 bm

/-- The delivered round-4 echo map. -/
def r4EchoMap (D : RunData F) : Except DkgError (List (ℕ × Round4EchoBroadcastData F)) :=
  collectE (fun j => (r4For D j).map (fun out => out.2)) (idsUpTo D.n)

/-- Participant `i` through round 5: `i` completes the run exactly when this
is `ok`. -/
def r5For (D : RunData F) (i : ℕ) : Except DkgError (Participant F × Unit) := do
  let out4 ← r4For D i
  let em ← r4EchoMap D
  round5 out4.1 em

/-! ### The explicit states of a faithful run

Explicit values of every intermediate state of a run in which all
participants are honest; the characterization theorems below prove that the
harness produces exactly these. -/

/-- Participant `i`'s secret polynomial coefficients. -/
def fCoeffs (D : RunData F) (i : ℕ) : List F :=
  D.sec i :: (List.range (D.t - 1)).map (D.sRand i)

/-- Participant `i`'s blinding polynomial coefficients. -/
def rCoeffs (D : RunData F) (i : ℕ) : List F :=
  D.bli i :: (List.range (D.t - 1)).map (D.bRand i)

/-- Participant `i`'s splitter output. -/
def compsOf (D : RunData F) (i : ℕ) : PedersenResult F :=
  split_secret D.n D.M D.H (D.sec i) (D.bli i)
    ((List.range (D.t - 1)).map (D.sRand i)) ((List.range (D.t - 1)).map (D.bRand i))

/-- Participant `i`'s Pedersen commitments. -/
def pedCommsOf (D : RunData F) (i : ℕ) : List F :=
  List.zipWith (fun a b => a * D.M + b * D.H) (fCoeffs D i) (rCoeffs D i)

/-- Participant `i`'s Feldman commitments. -/
def feldCommsOf (D : RunData F) (i : ℕ) : List F := (fCoeffs D i).map (· * D.M)

/-- Participant `i`'s round-1 broadcast. -/
def bOf (D : RunData F) (i : ℕ) : Round1BroadcastData F := ⟨D.M, D.H, pedCommsOf D i⟩

/-- The p2p message from dealer `j` to recipient `k`. -/
def shOf (D : RunData F) (j k : ℕ) : Round1P2PData F :=
  ⟨⟨k, polyEval (fCoeffs D j) (k : F)⟩, ⟨k, polyEval (rCoeffs D j) (k : F)⟩⟩

/-- Participant `i` as constructed. -/
def S0 (D : RunData F) (i : ℕ) : Participant F :=
  { id := i, components := compsOf D i, threshold := D.t, limit := D.n
    round := .one, secret_share := 0, public_key := 0
    round1_broadcast_data := [], round1_p2p_data := []
    valid_participant_ids := [] }

/-- Participant `i` after round 1. -/
def S1 (D : RunData F) (i : ℕ) : Participant F :=
  { S0 D i with
      round := .two
      round1_broadcast_data := [(i, bOf D i)]
      round1_p2p_data := [(i, shOf D i i)] }

/-- The peers of participant `i`. -/
def peerList (D : RunData F) (i : ℕ) : List ℕ :=
  (idsUpTo D.n).filter (fun j => decide (j ≠ i))

/-- The broadcast map delivered to `i`. -/
def bdataOf (D : RunData F) (i : ℕ) : List (ℕ × Round1BroadcastData F) :=
  (peerList D i).map (fun j => (j, bOf D j))

/-- The p2p map delivered to `i`. -/
def p2pOf (D : RunData F) (i : ℕ) : List (ℕ × Round1P2PData F) :=
  (peerList D i).map (fun j => (j, shOf D j i))

/-- Participant `i` after round 2: the full id set is valid, peers stashed. -/
def S2 (D : RunData F) (i : ℕ) : Participant F :=
  { S1 D i with
      round := .three
      valid_participant_ids := idsUpTo D.n
      round1_broadcast_data := (i, bOf D i) :: bdataOf D i
      round1_p2p_data := (i, shOf D i i) :: p2pOf D i }

/-- Participant `i` after round 3. -/
def S3 (D : RunData F) (i : ℕ) : Participant F := { S2 D i with round := .four }

/-- Participant `i`'s aggregated secret share. -/
def skOf (D : RunData F) (i : ℕ) : F :=
  ((idsUpTo D.n).map (fun j => polyEval (fCoeffs D j) (i : F))).sum

/-- The joint public key of the run: the sum of the contributed secrets
times the message generator. -/
def dkgKey (D : RunData F) : F := ((idsUpTo D.n).map D.sec).sum * D.M

/-- Participant `i` after round 4. -/
def S4 (D : RunData F) (i : ℕ) : Participant F :=
  { S3 D i with round := .five, secret_share := skOf D i, public_key := dkgKey D }

/-- Participant `j`'s round-3 broadcast. -/
def r3bOf (D : RunData F) (j : ℕ) : Round3BroadcastData F := ⟨D.M, feldCommsOf D j⟩

end Dkg

/-! ### Concrete runs

Two tiny concrete instantiations: the scalar field of a group of prime order
7 (a faithful-delivery run completing with a nonzero key) and of order 5
(a faithful-delivery run completing with the identity as public key, the
secrets summing to 0 mod 5). -/

instance fact_prime_5 : Fact (Nat.Prime 5) := ⟨by norm_num⟩

instance fact_prime_7 : Fact (Nat.Prime 7) := ⟨by norm_num⟩

/-- A (2,2)-run over the scalar field of order 7: polynomials
`f₁ = 2 + x`, `r₁ = 1 + x`, `f₂ = 3 + x`, `r₂ = 3 + x`;
secrets sum to 5 ≠ 0. -/
def D7 : RunData (ZMod 7) :=
  { t := 2, n := 2, M := 1, H := 2
    sec := fun i => if i = 1 then 2 else 3
    bli := fun i => if i = 1 then 1 else 3
    sRand := fun _ _ => 1
    bRand := fun _ _ => 1 }

/-- A (2,2)-run over the scalar field of order 5: polynomials
`f₁ = 2 + x`, `r₁ = 1 + x`, `f₂ = 3 + 3x`, `r₂ = 2 + 2x`;
the secrets 2 and 3 sum to 0 mod 5. -/
def D5 : RunData (ZMod 5) :=
  { t := 2, n := 2, M := 1, H := 2
    sec := fun i => if i = 1 then 2 else 3
    bli := fun i => if i = 1 then 1 else 2
    sRand := fun i _ => if i = 1 then 1 else 3
    bRand := fun i _ => if i = 1 then 1 else 2 }

/-- Shared parameters of the order-7 runs. -/
def goodParams7 : Parameters (ZMod 7) := ⟨2, 2, 1, 2⟩

/-- Parameters with limit 3 over the order-7 field. -/
def paramsN3 : Parameters (ZMod 7) := ⟨2, 3, 1, 2⟩

/-- The participant record produced by a successful
`Participant::new 1 goodParams7`. -/
def p1Fresh : Participant (ZMod 7) :=
  ⟨1, split_secret 2 1 2 2 1 [1] [1], 2, 2, .one, 0, 0, [], [], []⟩

/-- The group capabilities of the order-7 model group. -/
def ops7 : GroupOps (ZMod 7) :=
  ⟨1, fun x => natToBytesLE 32 x.val, fun seed => (bytesToNatLE seed : ZMod 7)⟩

/-! ## Theorems -/

theorem natToBytesLE_length (ℓ x : ℕ) : (natToBytesLE ℓ x).length = ℓ := by
  induction ℓ generalizing x with
  | zero => simp [natToBytesLE]
  | succ n ih => simp [natToBytesLE, ih]

theorem natToBytesLE_lt (ℓ x : ℕ) : ∀ b ∈ natToBytesLE ℓ x, b < 256 := by
  induction ℓ generalizing x with
  | zero => simp [natToBytesLE]
  | succ n ih =>
    intro b hb
    simp only [natToBytesLE, List.mem_cons] at hb
    rcases hb with h | h
    · omega
    · exact ih _ _ h

theorem bytesToNatLE_natToBytesLE (ℓ x : ℕ) (h : x < 256 ^ ℓ) :
    bytesToNatLE (natToBytesLE ℓ x) = x := by
  induction ℓ generalizing x with
  | zero =>
    simp only [pow_zero] at h
    interval_cases x
    simp [natToBytesLE, bytesToNatLE]
  | succ n ih =>
    have hdiv : x / 256 < 256 ^ n := by
      rw [Nat.div_lt_iff_lt_mul (by norm_num)]
      calc x < 256 ^ (n + 1) := h
        _ = 256 ^ n * 256 := by rw [pow_succ]
    simp only [natToBytesLE, bytesToNatLE, ih _ hdiv]
    omega

theorem bytesToSextets_lt (bs : List ℕ) (h : ∀ b ∈ bs, b < 256) :
    ∀ s ∈ bytesToSextets bs, s < 64 := by
  induction bs using bytesToSextets.induct with
  | case1 => simp [bytesToSextets]
  | case2 b1 =>
    have hb1 : b1 < 256 := h b1 (by simp)
    intro s hs
    simp only [bytesToSextets, List.mem_cons, List.not_mem_nil, or_false] at hs
    rcases hs with h1 | h1 <;> omega
  | case3 b1 b2 =>
    have hb1 : b1 < 256 := h b1 (by simp)
    have hb2 : b2 < 256 := h b2 (by simp)
    intro s hs
    simp only [bytesToSextets, List.mem_cons, List.not_mem_nil, or_false] at hs
    rcases hs with h1 | h1 | h1 <;> omega
  | case4 b1 b2 b3 rest ih =>
    have hb1 : b1 < 256 := h b1 (by simp)
    have hb2 : b2 < 256 := h b2 (by simp)
    have hb3 : b3 < 256 := h b3 (by simp)
    intro s hs
    simp only [bytesToSextets, List.mem_cons] at hs
    rcases hs with h1 | h1 | h1 | h1 | h1
    · omega
    · omega
    · omega
    · omega
    · exact ih (fun b hb => h b (by simp [hb])) s h1

theorem sextetsToBytes_bytesToSextets (bs : List ℕ) (h : ∀ b ∈ bs, b < 256) :
    sextetsToBytes (bytesToSextets bs) = some bs := by
  induction bs using bytesToSextets.induct with
  | case1 => simp [bytesToSextets, sextetsToBytes]
  | case2 b1 =>
    have hb1 : b1 < 256 := h b1 (by simp)
    simp only [bytesToSextets, sextetsToBytes, Option.some.injEq]
    have : b1 / 4 * 4 + b1 % 4 * 16 / 16 = b1 := by omega
    rw [this]
  | case3 b1 b2 =>
    have hb1 : b1 < 256 := h b1 (by simp)
    have hb2 : b2 < 256 := h b2 (by simp)
    simp only [bytesToSextets, sextetsToBytes, Option.some.injEq]
    have e1 : b1 / 4 * 4 + (b1 % 4 * 16 + b2 / 16) / 16 = b1 := by omega
    have e2 : (b1 % 4 * 16 + b2 / 16) % 16 * 16 + b2 % 16 * 4 / 4 = b2 := by omega
    rw [e1, e2]
  | case4 b1 b2 b3 rest ih =>
    have hb1 : b1 < 256 := h b1 (by simp)
    have hb2 : b2 < 256 := h b2 (by simp)
    have hb3 : b3 < 256 := h b3 (by simp)
    have hrest := ih (fun b hb => h b (by simp [hb]))
    simp only [bytesToSextets, sextetsToBytes, hrest]
    have e1 : b1 / 4 * 4 + (b1 % 4 * 16 + b2 / 16) / 16 = b1 := by omega
    have e2 : (b1 % 4 * 16 + b2 / 16) % 16 * 16 + (b2 % 16 * 4 + b3 / 64) / 4 = b2 := by
      omega
    have e3 : (b2 % 16 * 4 + b3 / 64) % 4 * 64 + b3 % 64 = b3 := by omega
    rw [Option.map_some', e1, e2, e3]

theorem sextetOfChar_charOfSextet_fin :
    ∀ n : Fin 64, sextetOfChar (charOfSextet n.val) = some n.val := by decide

theorem sextetOfChar_charOfSextet (n : ℕ) (h : n < 64) :
    sextetOfChar (charOfSextet n) = some n :=
  sextetOfChar_charOfSextet_fin ⟨n, h⟩

theorem sextetsOfChars_map (ss : List ℕ) (h : ∀ s ∈ ss, s < 64) :
    sextetsOfChars (ss.map charOfSextet) = some ss := by
  induction ss with
  | nil => rfl
  | cons s rest ih =>
    have hs : s < 64 := h s (by simp)
    have hrest := ih (fun x hx => h x (by simp [hx]))
    simp only [List.map_cons, sextetsOfChars, sextetOfChar_charOfSextet s hs, hrest]

theorem decodeB64_encodeB64 (bs : List ℕ) (h : ∀ b ∈ bs, b < 256) :
    decodeB64 (encodeB64 bs) = some bs := by
  unfold decodeB64 encodeB64
  rw [sextetsOfChars_map _ (bytesToSextets_lt bs h)]
  exact sextetsToBytes_bytesToSextets bs h

/-! ### Serialization claims -/

theorem elemFromBytes_natToBytesLE (q ℓ x : ℕ) (hq : q ≤ 256 ^ ℓ) (hx : x < q) :
    elemFromBytes q (natToBytesLE ℓ x) = some x := by
  unfold elemFromBytes
  rw [bytesToNatLE_natToBytesLE ℓ x (lt_of_lt_of_le hx hq)]
  simp [hx]

/-- **C6**: Human-readable round-trip: for every scalar and every group
element, serializing with the human-readable encoding (base64url of the
canonical byte representation) and then deserializing returns the original
value. -/
theorem human_readable_round_trip (q ℓ x y : ℕ)
    (hq : q ≤ 256 ^ ℓ) (hx : x < q) (hy : y < q) :
    deserializeScalarHR q ℓ (serializeScalarHR ℓ x) = .ok x ∧
    deserializeGHR q ℓ (serializeGHR ℓ y) = .ok y := by
  constructor
  · unfold serializeScalarHR deserializeScalarHR
    rw [decodeB64_encodeB64 _ (natToBytesLE_lt ℓ x)]
    simp [natToBytesLE_length, elemFromBytes_natToBytesLE q ℓ x hq hx]
  · unfold serializeGHR deserializeGHR
    rw [decodeB64_encodeB64 _ (natToBytesLE_lt ℓ y)]
    simp [natToBytesLE_length, elemFromBytes_natToBytesLE q ℓ y hq hy]

/-- Witness for **C6**: concrete round-trips at order 5, representation
size 2. -/
theorem human_readable_round_trip_witness :
    deserializeScalarHR 5 2 (serializeScalarHR 2 3) = .ok 3 ∧
    deserializeGHR 5 2 (serializeGHR 2 4) = .ok 4 :=
  human_readable_round_trip 5 2 3 4 (by norm_num) (by norm_num) (by norm_num)

/-- **C9**: In human-readable deserialization of scalars and group elements,
an input string whose base64url payload decodes to a byte length different
from the canonical representation size `ℓ` causes a panic (slice-length
mismatch in `copy_from_slice`) rather than returning a deserialization
error; the error branch is reached only for inputs of the correct length
(those whose payload decodes but fails field/group decoding). -/
theorem hr_wrong_length_panics (q ℓ : ℕ) (s : List Char) (bs : List ℕ)
    (hdec : decodeB64 s = some bs) :
    (bs.length ≠ ℓ →
      deserializeScalarHR q ℓ s = .panicked ∧ deserializeGHR q ℓ s = .panicked) ∧
    (∀ m, deserializeScalarHR q ℓ s = .err m → bs.length = ℓ) ∧
    (∀ m, deserializeGHR q ℓ s = .err m → bs.length = ℓ) := by
  unfold deserializeScalarHR deserializeGHR
  rw [hdec]
  refine ⟨fun hne => ?_, fun m hm => ?_, fun m hm => ?_⟩
  · simp [hne]
  · by_cases hl : bs.length = ℓ
    · exact hl
    · simp [hl] at hm
  · by_cases hl : bs.length = ℓ
    · exact hl
    · simp [hl] at hm

/-- Witness for **C9**: a one-byte payload fed to deserializers expecting a
three-byte representation panics in both cases. -/
theorem hr_wrong_length_panics_witness :
    deserializeScalarHR 5 3 (serializeScalarHR 1 1) = .panicked ∧
    deserializeGHR 5 3 (serializeScalarHR 1 1) = .panicked :=
  (hr_wrong_length_panics 5 3 (serializeScalarHR 1 1) [1] (by decide)).1 (by decide)

/-- **C5** (code bug): the binary commitment-vector round-trip fails for
nonempty vectors.  The fill loop of `deserialize_g_vec`'s binary visitor
(src/lib.rs:712-719) never increments its buffer index, so the whole byte
stream is consumed into `buffer[0]`; deserializing the serialization of the
one-element vector `[1]` returns `Ok([])` instead of the original vector. -/
theorem gvec_binary_round_trip_broken :
    deserializeGVecBin 33 (serializeGVecBin 33 [1]) = .ok [] ∧
    deserializeGVecBin 33 (serializeGVecBin 33 [1]) ≠ .ok [1] := by
  constructor
  · decide
  · decide

section DkgProofs

variable {F : Type} [Field F] [DecidableEq F]

/-! ### List and polynomial lemmas -/

theorem lookupId_map_of_mem {α : Type} (h : ℕ → α) (l : List ℕ) (i : ℕ)
    (hi : i ∈ l) : lookupId (l.map (fun k => (k, h k))) i = some (h i) := by
  induction l with
  | nil => cases hi
  | cons a rest ih =>
    simp only [List.map_cons, lookupId]
    by_cases hai : a = i
    · subst hai
      simp
    · rw [if_neg hai]
      rcases List.mem_cons.mp hi with h' | h'

      · exact absurd h'.symm hai
      · exact ih h'

theorem lookupId_map_of_not_mem {α : Type} (h : ℕ → α) (l : List ℕ) (i : ℕ)
    (hi : i ∉ l) : lookupId (l.map (fun k => (k, h k))) i = none := by
  induction l with
  | nil => rfl
  | cons a rest ih =>
    simp only [List.map_cons, lookupId]
    have ha : a ≠ i := fun ha => hi (ha ▸ List.mem_cons_self a rest)
    rw [if_neg ha]
    exact ih (fun h' => hi (List.mem_cons_of_mem a h'))

theorem mem_idsUpTo (n j : ℕ) : j ∈ idsUpTo n ↔ 1 ≤ j ∧ j ≤ n := by
  simp only [idsUpTo, List.mem_map, List.mem_range]
  constructor
  · rintro ⟨a, ha, rfl⟩
    omega
  · rintro ⟨h1, h2⟩
    exact ⟨j - 1, by omega, by omega⟩

theorem idsUpTo_length (n : ℕ) : (idsUpTo n).length = n := by
  simp [idsUpTo]

theorem getD_map_range {α : Type} (g : ℕ → α) (n k : ℕ) (d : α) (hk : k < n) :
    (((List.range n).map g).getD k d) = g k := by
  rw [List.getD_eq_getElem?_getD]
  simp [List.getElem?_range, hk]

theorem polyEval_nil (x : F) : polyEval ([] : List F) x = 0 := rfl

theorem polyEval_cons (c : F) (l : List F) (x : F) :
    polyEval (c :: l) x = c + x * polyEval l x := rfl

theorem polyEval_map_mul (cs : List F) (M x : F) :
    polyEval (cs.map (· * M)) x = polyEval cs x * M := by
  induction cs with
  | nil => simp [polyEval]
  | cons c rest ih =>
    simp only [List.map_cons, polyEval_cons, ih]
    ring

theorem polyEval_zipWith (as : List F) (M H x : F) :
    ∀ bs : List F, as.length = bs.length →
      polyEval (List.zipWith (fun a b => a * M + b * H) as bs) x =
        polyEval as x * M + polyEval bs x * H := by
  induction as with
  | nil =>
    intro bs hlen
    cases bs with
    | nil => simp [polyEval]
    | cons b bs => simp at hlen
  | cons a as ih =>
    intro bs hlen
    cases bs with
    | nil => simp at hlen
    | cons b bs =>
      simp only [List.zipWith_cons_cons, polyEval_cons, ih bs (by simpa using hlen)]
      ring

theorem sum_map_mul_right {α : Type} (l : List α) (g : α → F) (c : F) :
    (l.map (fun a => g a * c)).sum = (l.map g).sum * c := by
  induction l with
  | nil => simp
  | cons a rest ih =>
    simp only [List.map_cons, List.sum_cons, ih]
    ring

theorem collectE_ok {β : Type} (f : ℕ → Except DkgError β) (g : ℕ → β)
    (l : List ℕ) (h : ∀ j ∈ l, f j = .ok (g j)) :
    collectE f l = .ok (l.map (fun j => (j, g j))) := by
  induction l with
  | nil => rfl
  | cons a rest ih =>
    simp only [collectE, h a (List.mem_cons_self a rest),
      ih (fun j hj => h j (List.mem_cons_of_mem a hj)), List.map_cons]

theorem bind_ok_elim {α β : Type} (x : Except DkgError α) (f : α → Except DkgError β)
    (c : β) (h : x.bind f = .ok c) : ∃ a, x = .ok a ∧ f a = .ok c := by
  cases x with
  | ok a => exact ⟨a, rfl, h⟩
  | error e => exact Except.noConfusion h

theorem initWithComponents_ok_iff (id : ℕ) (par : Parameters F)
    (comps : PedersenResult F) (p : Participant F) :
    initWithComponents id par comps = .ok p ↔
      (¬ (comps.verifier.generator = 0 ∨
          comps.verifier.feldman_verifier.generator = 0) ∧
       ¬ ((∃ c ∈ comps.verifier.commitments, c = 0) ∨
          (∃ c ∈ comps.verifier.feldman_verifier.commitments, c = 0)) ∧
       ¬ ((∃ s ∈ comps.secret_shares, s.value = 0) ∨
          (∃ s ∈ comps.blind_shares, s.value = 0)) ∧
       p = { id := id, components := comps, threshold := par.threshold
             limit := par.limit, round := .one, secret_share := 0, public_key := 0
             round1_broadcast_data := [], round1_p2p_data := []
             valid_participant_ids := [] }) := by
  unfold initWithComponents
  split_ifs with h1 h2 h3
  · exact iff_of_false (by simp) (fun hc => hc.1 h1)
  · exact iff_of_false (by simp) (fun hc => hc.2.1 h2)
  · exact iff_of_false (by simp) (fun hc => hc.2.2.1 h3)
  · simp only [Except.ok.injEq]
    constructor
    · intro h
      exact ⟨h1, h2, h3, h.symm⟩
    · rintro ⟨-, -, -, h⟩
      exact h.symm

theorem initWithComponents_error_form (id : ℕ) (par : Parameters F)
    (comps : PedersenResult F) (e : DkgError)
    (h : initWithComponents id par comps = .error e) :
    ∃ msg, e = .initializationError msg := by
  unfold initWithComponents at h
  split_ifs at h <;> first
    | (injection h with h'; exact ⟨_, h'.symm⟩)
    | exact Except.noConfusion h

/-! ### Characterization of the stages of a faithful run -/

theorem initFor_ok_elim (D : RunData F) (j : ℕ)
    (h : ∃ p, initFor D j = .ok p) :
    D.M ≠ 0 ∧ D.H ≠ 0 ∧
    (∀ c ∈ pedCommsOf D j, c ≠ 0) ∧
    (∀ c ∈ feldCommsOf D j, c ≠ 0) ∧
    (∀ k, k < D.n → polyEval (fCoeffs D j) (((k + 1 : ℕ) : F)) ≠ 0) ∧
    (∀ k, k < D.n → polyEval (rCoeffs D j) (((k + 1 : ℕ) : F)) ≠ 0) ∧
    initFor D j = .ok (S0 D j) := by
  obtain ⟨p, hp⟩ := h
  have hp' : initWithComponents j D.params (compsOf D j) = .ok p := hp
  have hiff := (initWithComponents_ok_iff j D.params (compsOf D j) p).mp hp'
  refine ⟨fun h0 => hiff.1 (Or.inr h0), fun h0 => hiff.1 (Or.inl h0),
    fun c hc h0 => hiff.2.1 (Or.inl ⟨c, hc, h0⟩),
    fun c hc h0 => hiff.2.1 (Or.inr ⟨c, hc, h0⟩), ?_, ?_, ?_⟩
  · intro k hk h0
    exact hiff.2.2.1 (Or.inl ⟨⟨k + 1, polyEval (fCoeffs D j) (((k + 1 : ℕ) : F))⟩,
      List.mem_map.mpr ⟨k, List.mem_range.mpr hk, rfl⟩, h0⟩)
  · intro k hk h0
    exact hiff.2.2.1 (Or.inr ⟨⟨k + 1, polyEval (rCoeffs D j) (((k + 1 : ℕ) : F))⟩,
      List.mem_map.mpr ⟨k, List.mem_range.mpr hk, rfl⟩, h0⟩)
  · rw [hp, hiff.2.2.2]
    rfl

theorem round1ShareAt_S0 (D : RunData F) (j k : ℕ) (hk : k ∈ idsUpTo D.n) :
    round1ShareAt (S0 D j) k = shOf D j k := by
  obtain ⟨hk1, hk2⟩ := (mem_idsUpTo _ _).mp hk
  unfold round1ShareAt shOf
  have h1 : (S0 D j).components.secret_shares =
      (List.range D.n).map
        (fun a => (⟨a + 1, polyEval (fCoeffs D j) (((a + 1 : ℕ) : F))⟩ : Share F)) := rfl
  have h2 : (S0 D j).components.blind_shares =
      (List.range D.n).map
        (fun a => (⟨a + 1, polyEval (rCoeffs D j) (((a + 1 : ℕ) : F))⟩ : Share F)) := rfl
  rw [h1, h2, getD_map_range _ _ _ _ (by omega : k - 1 < D.n),
    getD_map_range _ _ _ _ (by omega : k - 1 < D.n)]
  have hkk : k - 1 + 1 = k := by omega
  rw [hkk]

theorem r1For_ok (D : RunData F) (j : ℕ) (hj : j ∈ idsUpTo D.n)
    (h0 : initFor D j = .ok (S0 D j)) :
    r1For D j = .ok (S1 D j, bOf D j,
      (peerList D j).map (fun k => (k, shOf D j k))) := by
  unfold r1For
  rw [h0]
  show round1 (S0 D j) = _
  unfold round1
  rw [if_neg (by simp [S0])]
  rw [show (S0 D j).id = j from rfl, show (S0 D j).limit = D.n from rfl]
  have hmap : ((idsUpTo D.n).filter (fun k => decide (k ≠ j))).map
      (fun k => (k, round1ShareAt (S0 D j) k)) =
      (peerList D j).map (fun k => (k, shOf D j k)) := by
    unfold peerList
    refine List.map_congr_left ?_
    intro k hk
    rw [round1ShareAt_S0 D j k (List.mem_of_mem_filter hk)]
  rw [hmap, round1ShareAt_S0 D j j hj,
    show round1Broadcast (S0 D j) = bOf D j from rfl]
  rfl

theorem bdataFor_ok (D : RunData F) (i : ℕ)
    (h1 : ∀ j ∈ idsUpTo D.n, r1For D j = .ok (S1 D j, bOf D j,
      (peerList D j).map (fun k => (k, shOf D j k)))) :
    bdataFor D i = .ok (bdataOf D i) := by
  unfold bdataFor bdataOf peerList
  refine collectE_ok _ (fun j => bOf D j) _ ?_
  intro j hj
  rw [h1 j (List.mem_of_mem_filter hj)]
  rfl

theorem p2pFor_ok (D : RunData F) (i : ℕ) (hi : i ∈ idsUpTo D.n)
    (h1 : ∀ j ∈ idsUpTo D.n, r1For D j = .ok (S1 D j, bOf D j,
      (peerList D j).map (fun k => (k, shOf D j k)))) :
    p2pFor D i = .ok (p2pOf D i) := by
  unfold p2pFor p2pOf peerList
  refine collectE_ok _ (fun j => shOf D j i) _ ?_
  intro j hj
  have hj' : j ∈ idsUpTo D.n := List.mem_of_mem_filter hj
  have hji : j ≠ i := by simpa using (List.mem_filter.mp hj).2
  rw [h1 j hj']
  show Except.ok ((lookupId ((peerList D j).map (fun k => (k, shOf D j k))) i).getD
    ⟨⟨0, 0⟩, ⟨0, 0⟩⟩) = _
  rw [lookupId_map_of_mem (shOf D j) (peerList D j) i ?_]
  · rfl
  · unfold peerList
    exact List.mem_filter.mpr ⟨hi, by simpa using fun h => hji h.symm⟩

theorem fCoeffs_length_eq (D : RunData F) (j : ℕ) :
    (fCoeffs D j).length = (rCoeffs D j).length := by
  simp [fCoeffs, rCoeffs]

theorem pedCommsOf_length (D : RunData F) (j : ℕ) (ht : 1 ≤ D.t) :
    (pedCommsOf D j).length = D.t := by
  unfold pedCommsOf fCoeffs rCoeffs
  simp only [List.length_zipWith, List.length_cons, List.length_map,
    List.length_range]
  omega

theorem feldCommsOf_length (D : RunData F) (j : ℕ) (ht : 1 ≤ D.t) :
    (feldCommsOf D j).length = D.t := by
  unfold feldCommsOf fCoeffs
  simp only [List.length_map, List.length_cons, List.length_range]
  omega

theorem checkPeer_honest (D : RunData F) (i j : ℕ) (ht : 1 ≤ D.t)
    (hi : i ∈ idsUpTo D.n) (hj : j ∈ idsUpTo D.n) (hji : j ≠ i)
    (hped : ∀ c ∈ pedCommsOf D j, c ≠ 0)
    (hf : polyEval (fCoeffs D j) ((i : ℕ) : F) ≠ 0)
    (hr : polyEval (rCoeffs D j) ((i : ℕ) : F) ≠ 0) :
    checkPeer (S1 D i) (bdataOf D i) (p2pOf D i) j = true := by
  have hjmem : j ∈ peerList D i := by
    unfold peerList
    exact List.mem_filter.mpr ⟨hj, by simpa using hji⟩
  have hb : lookupId (bdataOf D i) j = some (bOf D j) := by
    unfold bdataOf
    exact lookupId_map_of_mem _ _ _ hjmem
  have hp : lookupId (p2pOf D i) j = some (shOf D j i) := by
    unfold p2pOf
    exact lookupId_map_of_mem _ _ _ hjmem
  simp only [checkPeer, hb, hp, Bool.and_eq_true, decide_eq_true_eq,
    List.all_eq_true]
  refine ⟨⟨⟨⟨⟨⟨⟨⟨rfl, rfl⟩, ?_⟩, ?_⟩, rfl⟩, rfl⟩, hf⟩, hr⟩, ?_⟩
  · rw [show (S1 D i).threshold = D.t from rfl]
    exact pedCommsOf_length D j ht
  · exact fun c hc => hped c hc
  · rw [show (S1 D i).id = i from rfl]
    exact (polyEval_zipWith (fCoeffs D j) D.M D.H ((i : ℕ) : F) (rCoeffs D j)
      (fCoeffs_length_eq D j)).symm

theorem lookupId_bdataOf_self (D : RunData F) (i : ℕ) :
    lookupId (bdataOf D i) i = none := by
  unfold bdataOf
  apply lookupId_map_of_not_mem
  intro hmem
  unfold peerList at hmem
  have := (List.mem_filter.mp hmem).2
  simp at this

theorem lookupId_p2pOf_self (D : RunData F) (i : ℕ) :
    lookupId (p2pOf D i) i = none := by
  unfold p2pOf
  apply lookupId_map_of_not_mem
  intro hmem
  unfold peerList at hmem
  have := (List.mem_filter.mp hmem).2
  simp at this

theorem round2Valid_honest (D : RunData F) (i : ℕ) (ht : 1 ≤ D.t)
    (hi : i ∈ idsUpTo D.n)
    (hinit : ∀ j ∈ idsUpTo D.n, ∃ p, initFor D j = .ok p) :
    round2Valid (S1 D i) (bdataOf D i) (p2pOf D i) = idsUpTo D.n := by
  unfold round2Valid
  rw [show (S1 D i).limit = D.n from rfl, show (S1 D i).id = i from rfl]
  refine List.filter_eq_self.mpr ?_
  intro j hj
  by_cases hji : j = i
  · simp [hji]
  · have hGj := initFor_ok_elim D j (hinit j hj)
    have hjb := (mem_idsUpTo D.n j).mp hj
    have hib := (mem_idsUpTo D.n i).mp hi
    have hf : polyEval (fCoeffs D j) ((i : ℕ) : F) ≠ 0 := by
      have h' := hGj.2.2.2.2.1 (i - 1) (by omega)
      rwa [show i - 1 + 1 = i from by omega] at h'
    have hr : polyEval (rCoeffs D j) ((i : ℕ) : F) ≠ 0 := by
      have h' := hGj.2.2.2.2.2.1 (i - 1) (by omega)
      rwa [show i - 1 + 1 = i from by omega] at h'
    simp [checkPeer_honest D i j ht hi hj hji hGj.2.2.1 hf hr]

theorem r2For_ok (D : RunData F) (i : ℕ) (ht : 1 ≤ D.t) (htn : D.t ≤ D.n)
    (hi : i ∈ idsUpTo D.n)
    (hinit : ∀ j ∈ idsUpTo D.n, ∃ p, initFor D j = .ok p) :
    r2For D i = .ok (S2 D i, ⟨idsUpTo D.n⟩) := by
  have h1 : ∀ j ∈ idsUpTo D.n, r1For D j = .ok (S1 D j, bOf D j,
      (peerList D j).map (fun k => (k, shOf D j k))) := fun j hj =>
    r1For_ok D j hj (initFor_ok_elim D j (hinit j hj)).2.2.2.2.2.2
  unfold r2For
  rw [h1 i hi, bdataFor_ok D i h1, p2pFor_ok D i hi h1]
  show round2 (S1 D i) (bdataOf D i) (p2pOf D i) = _
  have hvalid := round2Valid_honest D i ht hi hinit
  have hb0 := lookupId_bdataOf_self D i
  have hp0 := lookupId_p2pOf_self D i
  have hfb : (bdataOf D i).filter (fun e => decide (e.1 ∈ idsUpTo D.n)) =
      bdataOf D i := by
    refine List.filter_eq_self.mpr ?_
    intro e he
    unfold bdataOf at he
    obtain ⟨j, hj, rfl⟩ := List.mem_map.mp he
    simpa using List.mem_of_mem_filter hj
  have hfp : (p2pOf D i).filter (fun e => decide (e.1 ∈ idsUpTo D.n)) =
      p2pOf D i := by
    refine List.filter_eq_self.mpr ?_
    intro e he
    unfold p2pOf at he
    obtain ⟨j, hj, rfl⟩ := List.mem_map.mp he
    simpa using List.mem_of_mem_filter hj
  unfold round2
  rw [if_neg (by simp [S1] : ¬(S1 D i).round ≠ Round.two),
    if_neg (by rw [show (S1 D i).id = i from rfl]; simp [hb0, hp0]), hvalid,
    show (S1 D i).threshold = D.t from rfl, idsUpTo_length,
    if_neg (by omega : ¬ D.n < D.t), hfb, hfp]
  rfl

theorem lookupId_map_const {α : Type} (c : α) (l : List ℕ) (i : ℕ) (hi : i ∈ l) :
    lookupId (l.map (fun k => (k, c))) i = some c := by
  induction l with
  | nil => cases hi
  | cons a rest ih =>
    simp only [List.map_cons, lookupId]
    by_cases hai : a = i
    · simp [hai]
    · rw [if_neg hai]
      rcases List.mem_cons.mp hi with h' | h'
      · exact absurd h'.symm hai
      · exact ih h'

theorem r2For_fail (D : RunData F) (i : ℕ) (ht : 1 ≤ D.t)
    (hi : i ∈ idsUpTo D.n)
    (hinit : ∀ j ∈ idsUpTo D.n, ∃ p, initFor D j = .ok p)
    (hlt : D.n < D.t) (o : Participant F × Round2EchoBroadcastData) :
    r2For D i ≠ .ok o := by
  have h1 : ∀ j ∈ idsUpTo D.n, r1For D j = .ok (S1 D j, bOf D j,
      (peerList D j).map (fun k => (k, shOf D j k))) := fun j hj =>
    r1For_ok D j hj (initFor_ok_elim D j (hinit j hj)).2.2.2.2.2.2
  unfold r2For
  rw [h1 i hi, bdataFor_ok D i h1, p2pFor_ok D i hi h1]
  show round2 (S1 D i) (bdataOf D i) (p2pOf D i) ≠ _
  unfold round2
  rw [if_neg (by simp [S1] : ¬(S1 D i).round ≠ Round.two),
    if_neg (by
      rw [show (S1 D i).id = i from rfl]
      simp [lookupId_bdataOf_self D i, lookupId_p2pOf_self D i]),
    round2Valid_honest D i ht hi hinit,
    show (S1 D i).threshold = D.t from rfl, idsUpTo_length,
    if_pos (by omega : D.n < D.t)]
  exact fun h => Except.noConfusion h

theorem r2EchoMap_ok (D : RunData F) (ht : 1 ≤ D.t) (htn : D.t ≤ D.n)
    (hinit : ∀ j ∈ idsUpTo D.n, ∃ p, initFor D j = .ok p) :
    r2EchoMap D = .ok ((idsUpTo D.n).map
      (fun j => (j, (⟨idsUpTo D.n⟩ : Round2EchoBroadcastData)))) := by
  unfold r2EchoMap
  refine collectE_ok _ (fun _ => (⟨idsUpTo D.n⟩ : Round2EchoBroadcastData)) _ ?_
  intro j hj
  rw [r2For_ok D j ht htn hj hinit]
  rfl

theorem r3For_ok (D : RunData F) (i : ℕ) (ht : 1 ≤ D.t) (htn : D.t ≤ D.n)
    (hi : i ∈ idsUpTo D.n)
    (hinit : ∀ j ∈ idsUpTo D.n, ∃ p, initFor D j = .ok p) :
    r3For D i = .ok (S3 D i, r3bOf D i) := by
  unfold r3For
  rw [r2For_ok D i ht htn hi hinit, r2EchoMap_ok D ht htn hinit]
  show round3 (S2 D i)
    ((idsUpTo D.n).map (fun j => (j, (⟨idsUpTo D.n⟩ : Round2EchoBroadcastData)))) = _
  have hkeep : round3Keep (S2 D i)
      ((idsUpTo D.n).map (fun j => (j, (⟨idsUpTo D.n⟩ : Round2EchoBroadcastData)))) =
      idsUpTo D.n := by
    unfold round3Keep
    rw [show (S2 D i).valid_participant_ids = idsUpTo D.n from rfl,
      show (S2 D i).id = i from rfl]
    refine List.filter_eq_self.mpr ?_
    intro j hj
    rw [lookupId_map_const (⟨idsUpTo D.n⟩ : Round2EchoBroadcastData) _ _ hj]
    simp
  unfold round3
  rw [if_neg (by rw [show (S2 D i).round = Round.three from rfl]; simp), hkeep,
    show (S2 D i).threshold = D.t from rfl, idsUpTo_length,
    if_neg (by omega : ¬ D.n < D.t)]
  rfl

theorem r3Map_ok (D : RunData F) (ht : 1 ≤ D.t) (htn : D.t ≤ D.n)
    (hinit : ∀ j ∈ idsUpTo D.n, ∃ p, initFor D j = .ok p) :
    r3Map D = .ok ((idsUpTo D.n).map (fun j => (j, r3bOf D j))) := by
  unfold r3Map
  refine collectE_ok _ (fun j => r3bOf D j) _ ?_
  intro j hj
  rw [r3For_ok D j ht htn hj hinit]
  rfl

theorem lookupId_S3_p2p (D : RunData F) (i j : ℕ) (hi : i ∈ idsUpTo D.n)
    (hj : j ∈ idsUpTo D.n) :
    lookupId (S3 D i).round1_p2p_data j = some (shOf D j i) := by
  rw [show (S3 D i).round1_p2p_data = (i, shOf D i i) :: p2pOf D i from rfl]
  simp only [lookupId]
  by_cases hij : i = j
  · subst hij
    rw [if_pos rfl]
  · rw [if_neg hij]
    unfold p2pOf
    refine lookupId_map_of_mem _ _ _ ?_
    unfold peerList
    exact List.mem_filter.mpr ⟨hj, by simpa using fun h => hij h.symm⟩

theorem r4For_ok (D : RunData F) (i : ℕ) (ht : 1 ≤ D.t) (htn : D.t ≤ D.n)
    (hi : i ∈ idsUpTo D.n)
    (hinit : ∀ j ∈ idsUpTo D.n, ∃ p, initFor D j = .ok p) :
    r4For D i = .ok (S4 D i, ⟨dkgKey D⟩) := by
  unfold r4For
  rw [r3For_ok D i ht htn hi hinit, r3Map_ok D ht htn hinit]
  show round4 (S3 D i) ((idsUpTo D.n).map (fun j => (j, r3bOf D j))) = _
  have hall : (S3 D i).valid_participant_ids.all
      (fun j => feldmanCheck (S3 D i)
        ((idsUpTo D.n).map (fun j => (j, r3bOf D j))) j) = true := by
    rw [show (S3 D i).valid_participant_ids = idsUpTo D.n from rfl,
      List.all_eq_true]
    intro j hj
    unfold feldmanCheck
    rw [lookupId_map_of_mem (r3bOf D) _ _ hj, lookupId_S3_p2p D i j hi hj]
    simp only [Bool.and_eq_true, decide_eq_true_eq]
    refine ⟨⟨rfl, ?_⟩, ?_⟩
    · rw [show (S3 D i).threshold = D.t from rfl]
      exact feldCommsOf_length D j ht
    · rw [show (S3 D i).id = i from rfl]
      show polyEval (fCoeffs D j) ((i : ℕ) : F) * D.M =
        polyEval (feldCommsOf D j) ((i : ℕ) : F)
      exact (polyEval_map_mul (fCoeffs D j) D.M _).symm
  have hsk : round4SecretShare (S3 D i) = skOf D i := by
    unfold round4SecretShare skOf
    rw [show (S3 D i).valid_participant_ids = idsUpTo D.n from rfl]
    refine congrArg List.sum (List.map_congr_left ?_)
    intro j hj
    rw [lookupId_S3_p2p D i j hi hj]
    rfl
  have hpk : round4PublicKey (S3 D i)
      ((idsUpTo D.n).map (fun j => (j, r3bOf D j))) = dkgKey D := by
    unfold round4PublicKey
    rw [show (S3 D i).valid_participant_ids = idsUpTo D.n from rfl]
    have hcongr : ∀ j ∈ idsUpTo D.n,
        ((lookupId ((idsUpTo D.n).map (fun k => (k, r3bOf D k))) j).getD
          ⟨0, []⟩).commitments.headD 0 = D.sec j * D.M := by
      intro j hj
      rw [lookupId_map_of_mem (r3bOf D) _ _ hj]
      rfl
    rw [List.map_congr_left hcongr]
    unfold dkgKey
    exact sum_map_mul_right (idsUpTo D.n) D.sec D.M
  unfold round4
  rw [if_neg (by rw [show (S3 D i).round = Round.four from rfl]; simp),
    if_pos hall, hsk, hpk]
  rfl

theorem r4EchoMap_ok (D : RunData F) (ht : 1 ≤ D.t) (htn : D.t ≤ D.n)
    (hinit : ∀ j ∈ idsUpTo D.n, ∃ p, initFor D j = .ok p) :
    r4EchoMap D = .ok ((idsUpTo D.n).map
      (fun j => (j, (⟨dkgKey D⟩ : Round4EchoBroadcastData F)))) := by
  unfold r4EchoMap
  refine collectE_ok _ (fun _ => (⟨dkgKey D⟩ : Round4EchoBroadcastData F)) _ ?_
  intro j hj
  rw [r4For_ok D j ht htn hj hinit]
  rfl

theorem r5For_ok (D : RunData F) (i : ℕ) (ht : 1 ≤ D.t) (htn : D.t ≤ D.n)
    (hi : i ∈ idsUpTo D.n)
    (hinit : ∀ j ∈ idsUpTo D.n, ∃ p, initFor D j = .ok p) :
    r5For D i = .ok (S4 D i, ()) := by
  unfold r5For
  rw [r4For_ok D i ht htn hi hinit, r4EchoMap_ok D ht htn hinit]
  show round5 (S4 D i)
    ((idsUpTo D.n).map (fun j => (j, (⟨dkgKey D⟩ : Round4EchoBroadcastData F)))) = _
  unfold round5
  rw [if_neg (by rw [show (S4 D i).round = Round.five from rfl]; simp), if_pos ?_]
  · rw [show (S4 D i).valid_participant_ids = idsUpTo D.n from rfl,
      show (S4 D i).id = i from rfl, List.all_eq_true]
    intro j hj
    have hj' : j ∈ idsUpTo D.n := List.mem_of_mem_filter hj
    rw [lookupId_map_const (⟨dkgKey D⟩ : Round4EchoBroadcastData F) _ _ hj']
    simp [show (S4 D i).public_key = dkgKey D from rfl]

/-- **C1** (amended): in a faithful-delivery run (with the nonzero threshold
a `NonZeroUsize` guarantees) in which every participant completes round 5
successfully, `get_public_key()` returns the same group element at every
participant, namely the sum of all contributed secrets times the message
generator; that element is the group identity exactly when the sum of the
contributed secrets is zero — so it is not the identity whenever the secrets
do not cancel (which holds with overwhelming probability for uniformly
random secrets), but round 5 never checks for identity. -/
theorem dkg_key_agreement (D : RunData F) (ht : 1 ≤ D.t)
    (hall : ∀ i ∈ idsUpTo D.n, ∃ out, r5For D i = .ok out) :
    ∀ i ∈ idsUpTo D.n,
      r4For D i = .ok (S4 D i, ⟨dkgKey D⟩) ∧
      r5For D i = .ok (S4 D i, ()) ∧
      get_public_key (S4 D i) = ((idsUpTo D.n).map D.sec).sum * D.M ∧
      (get_public_key (S4 D i) = 0 ↔ ((idsUpTo D.n).map D.sec).sum = 0) := by
  intro i hi
  have hinit : ∀ j ∈ idsUpTo D.n, ∃ p, initFor D j = .ok p := by
    intro j hj
    obtain ⟨out, hout⟩ := hall j hj
    unfold r5For at hout
    obtain ⟨o4, h4, -⟩ := bind_ok_elim _ _ _ hout
    unfold r4For at h4
    obtain ⟨o3, h3, -⟩ := bind_ok_elim _ _ _ h4
    unfold r3For at h3
    obtain ⟨o2, h2, -⟩ := bind_ok_elim _ _ _ h3
    unfold r2For at h2
    obtain ⟨o1, hr1, -⟩ := bind_ok_elim _ _ _ h2
    unfold r1For at hr1
    obtain ⟨p0, hp0, -⟩ := bind_ok_elim _ _ _ hr1
    exact ⟨p0, hp0⟩
  have htn : D.t ≤ D.n := by
    by_contra hlt
    push_neg at hlt
    obtain ⟨out, hout⟩ := hall i hi
    unfold r5For at hout
    obtain ⟨o4, h4, -⟩ := bind_ok_elim _ _ _ hout
    unfold r4For at h4
    obtain ⟨o3, h3, -⟩ := bind_ok_elim _ _ _ h4
    unfold r3For at h3
    obtain ⟨o2, h2, -⟩ := bind_ok_elim _ _ _ h3
    exact r2For_fail D i ht hi hinit hlt o2 h2
  have hM : D.M ≠ 0 := (initFor_ok_elim D i (hinit i hi)).1
  refine ⟨r4For_ok D i ht htn hi hinit, r5For_ok D i ht htn hi hinit, rfl, ?_⟩
  show dkgKey D = 0 ↔ _
  unfold dkgKey
  constructor
  · intro h
    rcases mul_eq_zero.mp h with h | h
    · exact h
    · exact absurd h hM
  · intro h
    rw [h, zero_mul]

/-! ### Constructor claims -/

/-- **C2**: `Participant::new` and `Participant::refresh` return an
`InitializationError` exactly when the Pedersen splitter's output contains a
commitment (Pedersen or Feldman) equal to the group identity, or a secret or
blind share that encodes to zero, or when either configured generator is the
identity; otherwise they return a `Participant`. -/
theorem new_refresh_error_iff (id : ℕ) (par : Parameters F) (secret blinder : F)
    (sr br : List F) :
    (let comps := split_secret par.limit par.message_generator
        par.blinder_generator secret blinder sr br
     ((∃ p, Participant.new id par secret blinder sr br = .ok p) ↔
       ¬ ((∃ c ∈ comps.verifier.commitments, c = 0) ∨
          (∃ c ∈ comps.verifier.feldman_verifier.commitments, c = 0) ∨
          (∃ s ∈ comps.secret_shares, s.value = 0) ∨
          (∃ s ∈ comps.blind_shares, s.value = 0) ∨
          par.message_generator = 0 ∨ par.blinder_generator = 0)) ∧
     ∀ e, Participant.new id par secret blinder sr br = .error e →
       ∃ msg, e = DkgError.initializationError msg) ∧
    (let comps := split_secret par.limit par.message_generator
        par.blinder_generator 0 blinder sr br
     ((∃ p, Participant.refresh id par blinder sr br = .ok p) ↔
       ¬ ((∃ c ∈ comps.verifier.commitments, c = 0) ∨
          (∃ c ∈ comps.verifier.feldman_verifier.commitments, c = 0) ∨
          (∃ s ∈ comps.secret_shares, s.value = 0) ∨
          (∃ s ∈ comps.blind_shares, s.value = 0) ∨
          par.message_generator = 0 ∨ par.blinder_generator = 0)) ∧
     ∀ e, Participant.refresh id par blinder sr br = .error e →
       ∃ msg, e = DkgError.initializationError msg) := by
  constructor <;>
  · constructor
    · constructor
      · rintro ⟨p, hp⟩
        have h := (initWithComponents_ok_iff _ _ _ _).mp hp
        intro hc
        rcases hc with hc | hc | hc | hc | hc | hc
        · exact h.2.1 (Or.inl hc)
        · exact h.2.1 (Or.inr hc)
        · exact h.2.2.1 (Or.inl hc)
        · exact h.2.2.1 (Or.inr hc)
        · exact h.1 (Or.inr hc)
        · exact h.1 (Or.inl hc)
      · intro hc
        refine ⟨_, (initWithComponents_ok_iff _ _ _ _).mpr ⟨?_, ?_, ?_, rfl⟩⟩
        · rintro (h | h)
          · refine hc (Or.inr (Or.inr (Or.inr (Or.inr (Or.inr ?_)))))
            simpa [split_secret] using h
          · refine hc (Or.inr (Or.inr (Or.inr (Or.inr (Or.inl ?_)))))
            simpa [split_secret] using h
        · rintro (h | h)
          · exact hc (Or.inl h)
          · exact hc (Or.inr (Or.inl h))
        · rintro (h | h)
          · exact hc (Or.inr (Or.inr (Or.inl h)))
          · exact hc (Or.inr (Or.inr (Or.inr (Or.inl h))))
    · intro e he
      exact initWithComponents_error_form _ _ _ _ he

/-- **C4** (amended): construction does not validate the identifier against
the limit: whether `new`/`refresh` succeed is independent of the (nonzero)
identifier, so any nonzero id — including one above `n` — is accepted
whenever the splitter-output checks pass. -/
theorem construction_ignores_id_bound (id1 id2 : ℕ) (par : Parameters F)
    (secret blinder : F) (sr br : List F) (h1 : id1 ≠ 0) (h2 : id2 ≠ 0) :
    ((∃ p, Participant.new id1 par secret blinder sr br = .ok p) ↔
     (∃ p, Participant.new id2 par secret blinder sr br = .ok p)) ∧
    ((∃ p, Participant.refresh id1 par blinder sr br = .ok p) ↔
     (∃ p, Participant.refresh id2 par blinder sr br = .ok p)) := by
  constructor <;>
  · constructor <;>
    · rintro ⟨p, hp⟩
      have h := (initWithComponents_ok_iff _ _ _ _).mp hp
      exact ⟨_, (initWithComponents_ok_iff _ _ _ _).mpr ⟨h.1, h.2.1, h.2.2.1, rfl⟩⟩

/-- **C7**: after a successful `Participant::new` or `Participant::refresh`,
the participant is in round 1, `get_id` returns the id, `get_secret_share`
returns zero, `get_public_key` returns the identity, and the stashes and the
valid-participant set are empty. -/
theorem fresh_participant_state (id : ℕ) (par : Parameters F) (secret blinder : F)
    (sr br : List F) (p : Participant F)
    (h : Participant.new id par secret blinder sr br = .ok p ∨
         Participant.refresh id par blinder sr br = .ok p) :
    p.round = Round.one ∧ get_id p = id ∧ get_secret_share p = 0 ∧
    get_public_key p = 0 ∧ p.round1_broadcast_data = [] ∧
    p.round1_p2p_data = [] ∧ p.valid_participant_ids = [] := by
  rcases h with h | h <;>
  · obtain ⟨-, -, -, hp⟩ := (initWithComponents_ok_iff _ _ _ _).mp h
    subst hp
    exact ⟨rfl, rfl, rfl, rfl, rfl, rfl, rfl⟩

/-! ### Round-gating claims -/

/-- **C3** (amended): every round function called while the round field
differs from its number returns an error (the model returns no successor
state on the error path, mirroring the early return before any mutation);
successful `round1`–`round4` calls advance the round, so an immediate second
call to the same function errors; `round5` takes the participant by shared
borrow and returns it unchanged, so a second `round5` call is the identical
computation and succeeds again. -/
theorem round_call_gating :
    (∀ p : Participant F, p.round ≠ Round.one → ∃ e, round1 p = .error e) ∧
    (∀ (p : Participant F) bdata p2p, p.round ≠ Round.two →
      ∃ e, round2 p bdata p2p = .error e) ∧
    (∀ (p : Participant F) echoes, p.round ≠ Round.three →
      ∃ e, round3 p echoes = .error e) ∧
    (∀ (p : Participant F) bdata, p.round ≠ Round.four →
      ∃ e, round4 p bdata = .error e) ∧
    (∀ (p : Participant F) echoes, p.round ≠ Round.five →
      ∃ e, round5 p echoes = .error e) ∧
    (∀ (p p' : Participant F) b pp, round1 p = .ok (p', b, pp) →
      ∃ e, round1 p' = .error e) ∧
    (∀ (p p' : Participant F) bdata p2p out, round2 p bdata p2p = .ok (p', out) →
      ∀ bdata2 p2p2, ∃ e, round2 p' bdata2 p2p2 = .error e) ∧
    (∀ (p p' : Participant F) echoes out, round3 p echoes = .ok (p', out) →
      ∀ echoes2, ∃ e, round3 p' echoes2 = .error e) ∧
    (∀ (p p' : Participant F) bdata out, round4 p bdata = .ok (p', out) →
      ∀ bdata2, ∃ e, round4 p' bdata2 = .error e) ∧
    (∀ (p p' : Participant F) echoes u, round5 p echoes = .ok (p', u) → p' = p) := by
  have w1 : ∀ p : Participant F, p.round ≠ Round.one → ∃ e, round1 p = .error e := by
    intro p hp
    unfold round1
    rw [if_pos hp]
    exact ⟨_, rfl⟩
  have w2 : ∀ (p : Participant F) bdata p2p, p.round ≠ Round.two →
      ∃ e, round2 p bdata p2p = .error e := by
    intro p bdata p2p hp
    unfold round2
    rw [if_pos hp]
    exact ⟨_, rfl⟩
  have w3 : ∀ (p : Participant F) echoes, p.round ≠ Round.three →
      ∃ e, round3 p echoes = .error e := by
    intro p echoes hp
    unfold round3
    rw [if_pos hp]
    exact ⟨_, rfl⟩
  have w4 : ∀ (p : Participant F) bdata, p.round ≠ Round.four →
      ∃ e, round4 p bdata = .error e := by
    intro p bdata hp
    unfold round4
    rw [if_pos hp]
    exact ⟨_, rfl⟩
  have w5 : ∀ (p : Participant F) echoes, p.round ≠ Round.five →
      ∃ e, round5 p echoes = .error e := by
    intro p echoes hp
    unfold round5
    rw [if_pos hp]
    exact ⟨_, rfl⟩
  refine ⟨w1, w2, w3, w4, w5, ?_, ?_, ?_, ?_, ?_⟩
  · intro p p' b pp h
    unfold round1 at h
    split_ifs at h
    injection h with h'
    have : p'.round = Round.two := by
      have := congrArg (fun x => x.1.round) h'
      simpa using this.symm
    exact w1 p' (by rw [this]; exact fun hh => Round.noConfusion hh)
  · intro p p' bdata p2p out h
    intro bdata2 p2p2
    unfold round2 at h
    split_ifs at h
    injection h with h'
    have : p'.round = Round.three := by
      have := congrArg (fun x => x.1.round) h'
      simpa using this.symm
    exact w2 p' bdata2 p2p2 (by rw [this]; exact fun hh => Round.noConfusion hh)
  · intro p p' echoes out h
    intro echoes2
    unfold round3 at h
    split_ifs at h
    injection h with h'
    have : p'.round = Round.four := by
      have := congrArg (fun x => x.1.round) h'
      simpa using this.symm
    exact w3 p' echoes2 (by rw [this]; exact fun hh => Round.noConfusion hh)
  · intro p p' bdata out h
    intro bdata2
    unfold round4 at h
    split_ifs at h
    injection h with h'
    have : p'.round = Round.five := by
      have := congrArg (fun x => x.1.round) h'
      simpa using this.symm
    exact w4 p' bdata2 (by rw [this]; exact fun hh => Round.noConfusion hh)
  · intro p p' echoes u h
    unfold round5 at h
    split_ifs at h
    injection h with h'
    have := congrArg (fun x => x.1) h'
    simpa using this.symm

/-! ### Parameter claims -/

/-- **C8**: `Parameters::new` is deterministic given the group: it returns
the same value on every call, with the message generator equal to the
group's standard generator and the blinder generator obtained by seeding the
deterministic ChaCha CSPRNG from the byte encoding of the message generator
and sampling one group element. -/
theorem parameters_new_deterministic (ops : GroupOps F) (t n : ℕ) :
    Parameters.new ops t n = Parameters.new ops t n ∧
    (Parameters.new ops t n).message_generator = ops.generator ∧
    (Parameters.new ops t n).blinder_generator =
      ops.random ((ops.toBytes ops.generator).take 32) ∧
    (Parameters.new ops t n).threshold = t ∧
    (Parameters.new ops t n).limit = n :=
  ⟨rfl, rfl, rfl, rfl, rfl⟩

/-- **C10**: `Parameters::new` and `Parameters::with_generators` perform no
validation and cannot fail: for every pair of nonzero threshold and limit —
including a threshold above the limit — both constructors return a
`Parameters` value carrying those numbers unchanged. -/
theorem parameters_no_validation (t n : ℕ) (mg bg : F) (ops : GroupOps F)
    (ht : t ≠ 0) (hn : n ≠ 0) :
    (Parameters.new ops t n).threshold = t ∧ (Parameters.new ops t n).limit = n ∧
    (Parameters.with_generators t n mg bg).threshold = t ∧
    (Parameters.with_generators t n mg bg).limit = n ∧
    (Parameters.with_generators t n mg bg).message_generator = mg ∧
    (Parameters.with_generators t n mg bg).blinder_generator = bg :=
  ⟨rfl, rfl, rfl, rfl, rfl, rfl⟩

theorem exists_ok_of_isOk {α : Type} (x : Except DkgError α) (h : x.isOk = true) :
    ∃ out, x = .ok out := by
  cases x with
  | ok a => exact ⟨a, rfl⟩
  | error e => simp [Except.isOk, Except.toBool] at h

end DkgProofs

/-- Witness for **C1**: the completing (2,2)-run over the order-7 field,
with the amended claim's conclusions at participant 1. -/
theorem dkg_key_agreement_witness :
    r4For D7 1 = .ok (S4 D7 1, ⟨dkgKey D7⟩) ∧
    r5For D7 1 = .ok (S4 D7 1, ()) ∧
    get_public_key (S4 D7 1) = ((idsUpTo D7.n).map D7.sec).sum * D7.M ∧
    (get_public_key (S4 D7 1) = 0 ↔ ((idsUpTo D7.n).map D7.sec).sum = 0) :=
  dkg_key_agreement D7 (by decide)
    (by
      intro i hi
      have h12 : idsUpTo D7.n = [1, 2] := rfl
      rw [h12] at hi
      rcases List.mem_cons.mp hi with rfl | hi
      · exact exists_ok_of_isOk _ (by decide)
      rcases List.mem_cons.mp hi with rfl | hi
      · exact exists_ok_of_isOk _ (by decide)
      · cases hi)
    1 (by decide)

/-- Counterexample for **C1** as stated: in the (2,2)-run over the order-5
field every participant completes round 5 successfully, yet the public key
computed by every participant is the group identity (the secrets sum to 0),
so "and that element is not the group identity" fails. -/
theorem dkg_key_identity_counterexample :
    (∀ i ∈ idsUpTo D5.n, (r5For D5 i).isOk = true) ∧
    (r4For D5 1).map (fun out => get_public_key out.1) = .ok 0 ∧
    (r4For D5 2).map (fun out => get_public_key out.1) = .ok 0 := by
  refine ⟨by decide, by decide, by decide⟩

/-- Counterexample for **C3** as stated: after participant 1 of the
completing order-7 run reaches round 5, two successive `round5` calls (the
second on the state returned by the first) both succeed — a second call to
`round5` does not error, because `round5` takes `&self` and leaves the round
at five. -/
theorem second_round5_call_succeeds :
    ((r4For D7 1).bind (fun out4 =>
      (r4EchoMap D7).bind (fun em =>
        (round5 out4.1 em).bind (fun out5 => round5 out5.1 em)))).isOk = true := by
  decide

/-- Witness for **C3**: a round-1 call on a participant whose round field is
two errors. -/
theorem round_call_gating_witness :
    ∃ e, round1 { p1Fresh with round := Round.two } = .error e :=
  (round_call_gating (F := ZMod 7)).1 _ (by decide)

/-- Witness for **C2**: a successful construction at honest parameters. -/
theorem new_refresh_error_iff_witness :
    ∃ p, Participant.new 1 goodParams7 (2 : ZMod 7) 1 [1] [1] = .ok p :=
  ((new_refresh_error_iff 1 goodParams7 (2 : ZMod 7) 1 [1] [1]).1.1).mpr (by decide)

/-- Counterexample for **C4** as stated: `Participant::new` with identifier
5 and limit 3 succeeds — no error is returned for an id above `n`. -/
theorem construction_accepts_id_above_limit :
    (Participant.new 5 paramsN3 (2 : ZMod 7) 1 [1] [1]).isOk = true := by decide

/-- Witness for **C4** (amended): acceptance at id 5 (above the limit 3)
coincides with acceptance at id 1. -/
theorem construction_ignores_id_bound_witness :
    ((∃ p, Participant.new 5 paramsN3 (2 : ZMod 7) 1 [1] [1] = .ok p) ↔
     (∃ p, Participant.new 1 paramsN3 (2 : ZMod 7) 1 [1] [1] = .ok p)) ∧
    ((∃ p, Participant.refresh 5 paramsN3 (1 : ZMod 7) [1] [1] = .ok p) ↔
     (∃ p, Participant.refresh 1 paramsN3 (1 : ZMod 7) [1] [1] = .ok p)) :=
  construction_ignores_id_bound 5 1 paramsN3 2 1 [1] [1] (by decide) (by decide)

/-- Witness for **C7**: the concrete fresh participant. -/
theorem fresh_participant_state_witness :
    p1Fresh.round = Round.one ∧ get_id p1Fresh = 1 ∧
    get_secret_share p1Fresh = 0 ∧ get_public_key p1Fresh = 0 ∧
    p1Fresh.round1_broadcast_data = [] ∧ p1Fresh.round1_p2p_data = [] ∧
    p1Fresh.valid_participant_ids = [] :=
  fresh_participant_state 1 goodParams7 2 1 [1] [1] p1Fresh (Or.inl (by decide))

/-- Witness for **C10**: a threshold of 3 above the limit 2 is accepted and
stored unchanged. -/
theorem parameters_no_validation_witness :
    (Parameters.new ops7 3 2).threshold = 3 ∧ (Parameters.new ops7 3 2).limit = 2 ∧
    (Parameters.with_generators 3 2 (1 : ZMod 7) 2).threshold = 3 ∧
    (Parameters.with_generators 3 2 (1 : ZMod 7) 2).limit = 2 ∧
    (Parameters.with_generators 3 2 (1 : ZMod 7) 2).message_generator = 1 ∧
    (Parameters.with_generators 3 2 (1 : ZMod 7) 2).blinder_generator = 2 :=
  parameters_no_validation 3 2 1 2 ops7 (by decide) (by decide)

end GennaroDkg
